import Mathlib

/-!
Shallow embedding of the `simple_menu` repository (Python 2):
  - `src/simple_menu/builders/AbstractMenuBuilder.py` (data model: `Menu`, `Section` namedtuples)
  - `src/simple_menu/handlers/MenuHandler.py` (the navigation state machine)
  - `src/simple_menu/builders/PropertiesMenuBuilder.py` (the per-group build loop)

Modelling conventions:
  - Python namedtuples become Lean structures / inductives; optional fields become `Option`.
  - The handler's `collections.deque` position (append/pop at the right end) becomes a
    `List Nat` whose last element is the deepest index.
  - Python exceptions become explicit error values in `Except`: `StopIteration`,
    `IndexError` (out-of-range tuple indexing / `pop` on an empty deque),
    `TypeError` (subscripting `None`), `KeyError` (missing dict key) and
    `AttributeError` (accessing `label` on the `Menu` namedtuple, or calling
    `.encode` on `None` in the builder).
  - Callbacks are zero-argument functions returning an optional string, stored in an
    association list mirroring the Python dict supplied to the handler.
-/

set_option autoImplicit false

namespace SimpleMenu

/-- `AbstractMenuBuilder.Section`: namedtuple `(name, label, callback, sections)`.
`sections` is `None` for a leaf, a tuple of child sections for a branch. -/
inductive MSection where
  | mk (name : String) (label : Option String) (callback : Option String)
       (sections : Option (List MSection))

def MSection.name : MSection → String
  | .mk n _ _ _ => n

def MSection.label : MSection → Option String
  | .mk _ l _ _ => l

def MSection.callback : MSection → Option String
  | .mk _ _ c _ => c

def MSection.sections : MSection → Option (List MSection)
  | .mk _ _ _ s => s

/-- `AbstractMenuBuilder.Menu`: namedtuple `(sections, callback)`. The handler's
initializer asserts `menu.sections` is a non-empty tuple, so it is modelled as a list. -/
structure Menu where
  sections : List MSection
  callback : Option String

/-- Python exceptions that can escape the location-resolution helpers. -/
inductive LocErr where
  | stopIteration
  | indexError
  | typeError
  | noneReturn
deriving DecidableEq

/-- Python exceptions that can escape `MenuHandler.get_current_location`. -/
inductive HErr where
  | loc (e : LocErr)
  | keyError
  | typeError
  | attributeError
deriving DecidableEq

/-- The callback registry: Python dict from identifier to zero-argument function. -/
abbrev CallbackMap := List (String × (Unit → Option String))

/-- `MenuHandler` state: the menu and the callbacks are read-only, the
`current_location` deque (here: list, deepest index last) is the mutable position. -/
structure MenuHandler where
  menu : Menu
  callbacks : Option CallbackMap
  current_location : List Nat

/-- `MenuHandler.__get_location`: `idx = next(location_iterator)` — `StopIteration`
on an exhausted iterator is caught only by the enclosing recursive call (which then
returns its own `sections[idx]`); `sections[idx]` raises `IndexError` when out of
range and `TypeError` when `sections` is `None`. -/
def getLocation : Option (List MSection) → List Nat → Except LocErr MSection
  | _, [] => .error .stopIteration
  | none, _ :: _ => .error .typeError
  | some ss, i :: rest =>
    match ss[i]? with
    | none => .error .indexError
    | some s =>
      match getLocation s.sections rest with
      | .error .stopIteration => .ok s
      | r => r

/-- The `for idx, loc in enumerate(...)` loop of `MenuHandler.__get_parent_current_location`:
walks the location indices, returning the node reached once `last_index` iterations
have been consumed (counter `0` here); falling off the loop returns Python `None`
(`noneReturn`), which the guards in the caller make unreachable. -/
def parentLoop : List MSection → List Nat → Nat → Except LocErr MSection
  | _, [], _ => .error .noneReturn
  | ss, loc :: _, 0 =>
    match ss[loc]? with
    | none => .error .indexError
    | some s => .ok s
  | ss, loc :: rest, k + 1 =>
    match ss[loc]? with
    | none => .error .indexError
    | some s =>
      match s.sections with
      | none => .error .typeError
      | some ss' => parentLoop ss' rest k

/-- The parent (line 192 of the source: the root menu is a special section) or a
section: the two shapes `get_current_location` and `__get_parent_current_location`
can address. -/
inductive Node where
  | root (m : Menu)
  | child (s : MSection)

def Node.callback : Node → Option String
  | .root m => m.callback
  | .child s => s.callback

def Node.sectionsOpt : Node → Option (List MSection)
  | .root m => some m.sections
  | .child s => s.sections

/-- `MenuHandler.__get_parent_current_location`: the menu itself when the path has
length at most 1, otherwise the node reached after `len(path) - 1` indexing steps. -/
def get_parent_current_location (h : MenuHandler) : Except LocErr Node :=
  if h.current_location.length ≤ 1 then .ok (.root h.menu)
  else
    match parentLoop h.menu.sections h.current_location (h.current_location.length - 2) with
    | .error e => .error e
    | .ok s => .ok (.child s)

/-- Lines 192–195 of `MenuHandler.get_current_location`: with `use_callback` set and a
path of length 1 the root menu itself is addressed, otherwise the node at the path. -/
def addressedNode (h : MenuHandler) (use_callback : Bool) : Except HErr Node :=
  if h.current_location.length == 1 && use_callback then .ok (.root h.menu)
  else
    match getLocation (some h.menu.sections) h.current_location with
    | .error e => .error (.loc e)
    | .ok s => .ok (.child s)

/-- `self.__callbacks[section.callback]()`: `TypeError` when `callbacks` is `None`,
`KeyError` when the identifier has no entry, otherwise the function's result. -/
def invokeCallback (h : MenuHandler) (cbid : String) : Except HErr (Option String) :=
  match h.callbacks with
  | none => .error .typeError
  | some cbs =>
    match cbs.lookup cbid with
    | none => .error .keyError
    | some f => .ok (f ())

/-- `MenuHandler.get_current_location(use_callback)`. The label/name fallback applied
to the root menu raises `AttributeError` (the `Menu` namedtuple has no `label`). -/
def get_current_location (h : MenuHandler) (use_callback : Bool) : Except HErr (Option String) :=
  match addressedNode h use_callback with
  | .error e => .error e
  | .ok node =>
    match use_callback, node.callback with
    | true, some cbid => invokeCallback h cbid
    | _, _ =>
      match node with
      | .root _ => .error .attributeError
      | .child s =>
        match s.label with
        | some l => .ok (some l)
        | none => .ok (some s.name)

/-- `MenuHandler.back`: pop the deepest index when the path is longer than 1 and
report without callback; otherwise keep the position and report with callback. -/
def back (h : MenuHandler) : MenuHandler × Except HErr (Option String) :=
  if h.current_location.length > 1 then
    let h' : MenuHandler := { h with current_location := h.current_location.dropLast }
    (h', get_current_location h' false)
  else
    (h, get_current_location h true)

/-- `MenuHandler.forward`: descend to child 0 when the current node has sub-sections
and report without callback; otherwise keep the position and report with callback. -/
def forward (h : MenuHandler) : MenuHandler × Except HErr (Option String) :=
  match getLocation (some h.menu.sections) h.current_location with
  | .error e => (h, .error (.loc e))
  | .ok s =>
    match s.sections with
    | some _ =>
      let h' : MenuHandler := { h with current_location := h.current_location ++ [0] }
      (h', get_current_location h' false)
    | none => (h, get_current_location h true)

/-- `MenuHandler.next`: pop the deepest index, increment it, wrap to 0 when it reaches
the parent's section count, push it back; report with the default `use_callback=False`. -/
def next (h : MenuHandler) : MenuHandler × Except HErr (Option String) :=
  match get_parent_current_location h with
  | .error e => (h, .error (.loc e))
  | .ok parent =>
    match parent.sectionsOpt with
    | none => (h, get_current_location h false)
    | some ss =>
      match h.current_location.getLast? with
      | none => (h, .error (.loc .indexError))
      | some current_idx =>
        let n1 := current_idx + 1
        let next_idx := if ss.length = n1 then 0 else n1
        let h' : MenuHandler :=
          { h with current_location := h.current_location.dropLast ++ [next_idx] }
        (h', get_current_location h' false)

/-- `MenuHandler.previous`: pop the deepest index, replace 0 by the parent's section
count, decrement, push back; report with the default `use_callback=False`. -/
def previous (h : MenuHandler) : MenuHandler × Except HErr (Option String) :=
  match get_parent_current_location h with
  | .error e => (h, .error (.loc e))
  | .ok parent =>
    match parent.sectionsOpt with
    | none => (h, get_current_location h false)
    | some ss =>
      match h.current_location.getLast? with
      | none => (h, .error (.loc .indexError))
      | some current_idx =>
        let c := if current_idx = 0 then ss.length else current_idx
        let next_idx := c - 1
        let h' : MenuHandler :=
          { h with current_location := h.current_location.dropLast ++ [next_idx] }
        (h', get_current_location h' false)

/-- `MenuHandler.__init__`: position starts as the single index `[0]`. -/
def initialHandler (m : Menu) (cbs : Option CallbackMap) : MenuHandler :=
  ⟨m, cbs, [0]⟩

/-- Validity of a position path: every index is in bounds for the sibling list it
indexes, and every non-final step descends through a present `sections` tuple. -/
def validPathB : List MSection → List Nat → Bool
  | _, [] => true
  | ss, [i] => (ss[i]?).isSome
  | ss, i :: rest =>
    match ss[i]? with
    | none => false
    | some s =>
      match s.sections with
      | none => false
      | some ss' => validPathB ss' rest

/-- Specification-side resolver: the node a (non-empty) path points at. -/
def resolve : List MSection → List Nat → Option MSection
  | _, [] => none
  | ss, [i] => ss[i]?
  | ss, i :: rest =>
    match ss[i]? with
    | none => none
    | some s =>
      match s.sections with
      | none => none
      | some ss' => resolve ss' rest

/-- Specification-side helper: the sibling list enclosing the node a path points at
(the root's section tuple at depth 1, else the parent's `sections`). -/
def siblings : List MSection → List Nat → Option (List MSection)
  | _, [] => none
  | ss, [_] => some ss
  | ss, i :: rest =>
    match ss[i]? with
    | none => none
    | some s =>
      match s.sections with
      | none => none
      | some ss' => siblings ss' rest

mutual

/-- Tree invariant for one section: a branch has a non-empty child tuple of
well-formed sections. -/
def wfSection : MSection → Bool
  | .mk _ _ _ none => true
  | .mk _ _ _ (some ss) => !ss.isEmpty && wfSections ss

/-- Tree invariant for a sibling list. -/
def wfSections : List MSection → Bool
  | [] => true
  | s :: rest => wfSection s && wfSections rest

end

/-- Tree invariant for the whole menu: at least one top-level section, every branch
non-empty. -/
def wfMenu (m : Menu) : Bool :=
  !m.sections.isEmpty && wfSections m.sections

/-- The four public navigation operations, for reasoning about arbitrary call
sequences. -/
inductive NavOp where
  | back
  | forward
  | next
  | previous

/-- The state after one navigation call (the returned report is dropped). -/
def applyNav (h : MenuHandler) : NavOp → MenuHandler
  | .back => (back h).1
  | .forward => (forward h).1
  | .next => (next h).1
  | .previous => (previous h).1

/-- The state after a sequence of navigation calls. -/
def runNav (h : MenuHandler) : List NavOp → MenuHandler
  | [] => h
  | op :: ops => runNav (applyNav h op) ops

namespace PropertiesMenuBuilder

/-- Python exceptions / errors that can escape `PropertiesMenuBuilder.build`:
subscripting `dynamic_sections_by_opt_name` when it is `None` (`TypeError`), a
missing dynamic base name (`KeyError`), `s[0].encode('utf-8')` on a `None` label
(`AttributeError`), the explicit `ValueError` for a group with no sections, and
`ConfigParser`'s `NoOptionError` for a `default_settings` group without `callback`. -/
inductive BuildErr where
  | typeErrorNoDyn
  | keyErrorDyn
  | attributeErrorEncode
  | valueErrorNoSections
  | noOptionError
deriving DecidableEq

/-- Per-group accumulator mirroring the `collections.OrderedDict` of
`[label, callback]` pairs, with the warnings printed so far. -/
abbrev GroupMap := List (String × (Option String × Option String))

/-- Python `str.split(sep)` for a one-character separator (the source's default
`'.'`), over the character list of the key. -/
def splitOnSep (sep : Char) : List Char → List (List Char)
  | [] => [[]]
  | c :: cs =>
    match splitOnSep sep cs with
    | [] => [[c]]
    | g :: gs => if c = sep then [] :: g :: gs else (c :: g) :: gs

/-- `OrderedDict` assignment: update in place when the key exists (keeping its
position), append otherwise. -/
def setAssoc (m : GroupMap) (k : String) (v : Option String × Option String) : GroupMap :=
  if (m.lookup k).isSome then m.map (fun p => if p.1 = k then (p.1, v) else p)
  else m ++ [(k, v)]

/-- `sections[opt_name][0] = value` (the key is known to be present). -/
def setLabelAt (m : GroupMap) (k : String) (v : String) : GroupMap :=
  m.map (fun p => if p.1 = k then (p.1, (some v, p.2.2)) else p)

/-- `sections[opt_name][1] = value` (the key is known to be present). -/
def setCallbackAt (m : GroupMap) (k : String) (v : String) : GroupMap :=
  m.map (fun p => if p.1 = k then (p.1, (p.2.1, some v)) else p)

/-- One iteration of the `for option_str, value in parser.items(section_name)` loop
(lines 86–101 of the source): split the key on the separator; skip it unless it has
exactly two parts; expand `dynamic` entries from `dynamic_sections_by_opt_name`;
otherwise register the section name (with `[None, None]`) when new, then record the
label or the callback — an unrecognized property prints a warning and records
nothing. -/
def processOption (sep : Char) (dyn : Option (List (String × List (String × Option String))))
    (st : GroupMap × List String) (kv : String × String) :
    Except BuildErr (GroupMap × List String) :=
  match (splitOnSep sep kv.1.toList).map (fun l => String.mk l) with
  | [opt_name, opt_property] =>
    if opt_property = "dynamic" then
      match dyn with
      | none => .error .typeErrorNoDyn
      | some d =>
        match d.lookup opt_name with
        | none => .error .keyErrorDyn
        | some entries =>
          .ok (entries.enum.foldl
                (fun acc e => setAssoc acc (opt_name ++ toString e.1) (some e.2.1, e.2.2))
                st.1,
               st.2)
    else
      let m := if (st.1.lookup opt_name).isSome then st.1
               else st.1 ++ [(opt_name, (none, none))]
      if opt_property = "label" then .ok (setLabelAt m opt_name kv.2, st.2)
      else if opt_property = "callback" then .ok (setCallbackAt m opt_name kv.2, st.2)
      else .ok (m, st.2 ++ [opt_name])
  | _ => .ok st

/-- Lines 85–106 of the source: fold the group's options, then build one leaf
`Section` per accumulated name — `s[0].encode('utf-8')` fails on a `None` label —
fail when the group yielded no sections, and wrap them in the group's section. -/
def buildGroup (sep : Char) (dyn : Option (List (String × List (String × Option String))))
    (group : String × List (String × String)) : Except BuildErr (MSection × List String) := do
  let st ← group.2.foldlM (processOption sep dyn) ([], [])
  let secs ← st.1.mapM (fun p =>
    match p.2.1 with
    | none => Except.error BuildErr.attributeErrorEncode
    | some l => Except.ok (MSection.mk p.1 (some l) p.2.2 none))
  if secs.isEmpty then .error .valueErrorNoSections
  else .ok (MSection.mk group.1 none none (some secs), st.2)

/-- `PropertiesMenuBuilder.build` over the parsed group structure of the properties
file: the reserved `default_settings` group supplies the root callback (its absence
under that group is `ConfigParser`'s `NoOptionError`), every other group becomes one
top-level section. Returns the menu together with the warnings printed. -/
def build (sep : Char) (dyn : Option (List (String × List (String × Option String))))
    (groups : List (String × List (String × String))) :
    Except BuildErr (Menu × List String) := do
  let acc ← groups.foldlM
    (fun (acc : List MSection × Option String × List String) g =>
      if g.1 = "default_settings" then
        match g.2.lookup "callback" with
        | none => Except.error BuildErr.noOptionError
        | some v => Except.ok (acc.1, some v, acc.2.2)
      else do
        let r ← buildGroup sep dyn g
        Except.ok (acc.1 ++ [r.1], acc.2.1, acc.2.2 ++ r.2))
    ([], none, [])
  Except.ok (⟨acc.1, acc.2.1⟩, acc.2.2)

end PropertiesMenuBuilder

/-! Concrete menus for witnesses and counterexamples. `exMenu` is the sample tree of
the `MenuHandler` class contract: A (children A.a, A.b) and B (child B.a, which has
the single child B.a.a). -/

def secAa : MSection := .mk "A.a" none (some "cb_aa") none

def secAb : MSection := .mk "A.b" (some "Label A.b") none none

def secA : MSection := .mk "A" (some "Label A") (some "cb_a") (some [secAa, secAb])

def secBaa : MSection := .mk "B.a.a" none none none

def secBa : MSection := .mk "B.a" none none (some [secBaa])

def secB : MSection := .mk "B" none none (some [secBa])

def exMenu : Menu := ⟨[secA, secB], some "cb_menu"⟩

def exCallbacks : Option CallbackMap :=
  some [("cb_aa", fun _ => some "ran A.a"), ("cb_a", fun _ => none),
        ("cb_menu", fun _ => some "ran menu")]

/-- Handler on the sample tree at the initial position `[0]`. -/
def exHandler : MenuHandler := ⟨exMenu, exCallbacks, [0]⟩

/-- Handler on the sample tree at the leaf A.b (path `[0, 1]`). -/
def exLeafHandler : MenuHandler := ⟨exMenu, exCallbacks, [0, 1]⟩

/-- Menu whose only top-level section and whose root carry distinct registered
callbacks: separates the two candidates at root activation. -/
def rootMenu : Menu := ⟨[.mk "A" none (some "sec_cb") none], some "menu_cb"⟩

def rootCallbacks : Option CallbackMap :=
  some [("sec_cb", fun _ => some "SECTION"), ("menu_cb", fun _ => some "MENU")]

def rootHandler : MenuHandler := ⟨rootMenu, rootCallbacks, [0]⟩

/-- Menu whose only top-level section has a registered callback while the root menu
has none at all. -/
def cex4Menu : Menu := ⟨[.mk "A" (some "LabelA") (some "sec_cb") none], none⟩

def cex4Handler : MenuHandler :=
  ⟨cex4Menu, some [("sec_cb", fun _ => some "SECTION")], [0]⟩

/-- Handler whose current node declares callback `cb_aa`, with a registry that has
no entry for it. -/
def cex6Handler : MenuHandler :=
  ⟨exMenu, some [("other", fun _ => some "x")], [0, 0]⟩

/-- Handler on the sample tree at the leaf A.a (path `[0, 0]`), whose callback
`cb_aa` is registered. -/
def exLeafCbHandler : MenuHandler := ⟨exMenu, exCallbacks, [0, 0]⟩

/-! Resolution lemmas: how `getLocation`, `parentLoop` and `siblings` behave on
valid paths. -/

theorem resolve_isSome_of_valid : ∀ (p : List Nat) (ss : List MSection), p ≠ [] →
    validPathB ss p = true → ∃ s, resolve ss p = some s
  | [], _, hne, _ => absurd rfl hne
  | [i], ss, _, hv => by
    cases hget : ss[i]? with
    | none => simp [validPathB, hget] at hv
    | some s => exact ⟨s, by simp [resolve, hget]⟩
  | i :: j :: rest, ss, _, hv => by
    cases hget : ss[i]? with
    | none => simp [validPathB, hget] at hv
    | some s =>
      cases hsec : s.sections with
      | none => simp [validPathB, hget, hsec] at hv
      | some ss' =>
        simp only [validPathB, hget, hsec] at hv
        obtain ⟨t, ht⟩ := resolve_isSome_of_valid (j :: rest) ss' (by simp) hv
        exact ⟨t, by simp [resolve, hget, hsec, ht]⟩

theorem getLocation_of_resolve : ∀ (p : List Nat) (ss : List MSection) (s : MSection),
    resolve ss p = some s → getLocation (some ss) p = .ok s
  | [], _, _, hr => by simp [resolve] at hr
  | [i], ss, s, hr => by
    simp only [resolve] at hr
    simp [getLocation, hr]
  | i :: j :: rest, ss, s, hr => by
    cases hget : ss[i]? with
    | none => simp [resolve, hget] at hr
    | some s₀ =>
      cases hsec : s₀.sections with
      | none => simp [resolve, hget, hsec] at hr
      | some ss' =>
        simp only [resolve, hget, hsec] at hr
        have ih := getLocation_of_resolve (j :: rest) ss' s hr
        simp [getLocation, hget, hsec, ih]

theorem parentLoop_concat : ∀ (q : List Nat) (ss : List MSection) (s : MSection) (t : List Nat),
    resolve ss q = some s → parentLoop ss (q ++ t) (q.length - 1) = .ok s
  | [], _, _, _, hr => by simp [resolve] at hr
  | [i], ss, s, t, hr => by
    simp only [resolve] at hr
    simp [parentLoop, hr]
  | i :: j :: rest, ss, s, t, hr => by
    cases hget : ss[i]? with
    | none => simp [resolve, hget] at hr
    | some s₀ =>
      cases hsec : s₀.sections with
      | none => simp [resolve, hget, hsec] at hr
      | some ss' =>
        simp only [resolve, hget, hsec] at hr
        have ih := parentLoop_concat (j :: rest) ss' s t hr
        simpa [parentLoop, hget, hsec, Nat.succ_sub_one] using ih

theorem validPathB_dropLast : ∀ (p : List Nat) (ss : List MSection),
    validPathB ss p = true → validPathB ss p.dropLast = true
  | [], _, _ => rfl
  | [_], _, _ => rfl
  | i :: j :: rest, ss, hv => by
    cases hget : ss[i]? with
    | none => simp [validPathB, hget] at hv
    | some s =>
      cases hsec : s.sections with
      | none => simp [validPathB, hget, hsec] at hv
      | some ss' =>
        simp only [validPathB, hget, hsec] at hv
        have ih := validPathB_dropLast (j :: rest) ss' hv
        cases rest with
        | nil => simp [validPathB, hget]
        | cons k rest' =>
          simpa [validPathB, List.dropLast, hget, hsec] using ih

theorem siblings_concat : ∀ (q : List Nat) (ss : List MSection) (s : MSection) (i : Nat),
    resolve ss q = some s → siblings ss (q ++ [i]) = s.sections
  | [], _, _, _, hr => by simp [resolve] at hr
  | [j], ss, s, i, hr => by
    simp only [resolve] at hr
    cases hsec : s.sections with
    | none => simp [siblings, hr, hsec]
    | some ss' => simp [siblings, hr, hsec]
  | j :: k :: rest, ss, s, i, hr => by
    cases hget : ss[j]? with
    | none => simp [resolve, hget] at hr
    | some s₀ =>
      cases hsec : s₀.sections with
      | none => simp [resolve, hget, hsec] at hr
      | some ss' =>
        simp only [resolve, hget, hsec] at hr
        have ih := siblings_concat (k :: rest) ss' s i hr
        simpa [siblings, hget, hsec] using ih

theorem siblings_congr_last : ∀ (q : List Nat) (ss : List MSection) (i j : Nat),
    siblings ss (q ++ [i]) = siblings ss (q ++ [j])
  | [], _, _, _ => rfl
  | [k], ss, i, j => by
    cases hget : ss[k]? with
    | none => simp [siblings, hget]
    | some s =>
      cases hsec : s.sections with
      | none => simp [siblings, hget, hsec]
      | some ss' => simp [siblings, hget, hsec]
  | k :: l :: rest, ss, i, j => by
    cases hget : ss[k]? with
    | none => simp [siblings, hget]
    | some s =>
      cases hsec : s.sections with
      | none => simp [siblings, hget, hsec]
      | some ss' =>
        have ih := siblings_congr_last (l :: rest) ss' i j
        simpa [siblings, hget, hsec] using ih

theorem last_lt_of_valid : ∀ (q : List Nat) (ss : List MSection) (i : Nat)
    (sib : List MSection), validPathB ss (q ++ [i]) = true →
    siblings ss (q ++ [i]) = some sib → i < sib.length
  | [], ss, i, sib, hv, hs => by
    simp only [List.nil_append, siblings] at hs
    cases hs
    cases hget : ss[i]? with
    | none => simp [validPathB, hget] at hv
    | some s => exact (List.getElem?_eq_some.mp hget).1
  | [k], ss, i, sib, hv, hs => by
    cases hget : ss[k]? with
    | none => simp [validPathB, hget] at hv
    | some s =>
      cases hsec : s.sections with
      | none => simp [validPathB, hget, hsec] at hv
      | some ss' =>
        simp only [List.cons_append, List.nil_append, siblings, hget, hsec] at hs
        simp only [List.cons_append, List.nil_append, validPathB, hget, hsec] at hv
        exact last_lt_of_valid [] ss' i sib (by simpa using hv) (by simpa [siblings] using hs)
  | k :: l :: rest, ss, i, sib, hv, hs => by
    cases hget : ss[k]? with
    | none => simp [validPathB, hget] at hv
    | some s =>
      cases hsec : s.sections with
      | none => simp [validPathB, hget, hsec] at hv
      | some ss' =>
        simp only [List.cons_append, validPathB, hget, hsec] at hv
        simp only [List.cons_append, siblings, hget, hsec] at hs
        exact last_lt_of_valid (l :: rest) ss' i sib hv hs

theorem validPathB_concat_of_lt : ∀ (q : List Nat) (ss : List MSection) (j : Nat)
    (sib : List MSection), siblings ss (q ++ [j]) = some sib → j < sib.length →
    validPathB ss q = true → validPathB ss (q ++ [j]) = true
  | [], ss, j, sib, hs, hj, _ => by
    simp only [List.nil_append, siblings] at hs
    cases hs
    obtain ⟨a, ha⟩ : ∃ a, ss[j]? = some a := ⟨ss.get ⟨j, hj⟩, List.getElem?_eq_getElem hj⟩
    simp [validPathB, ha]
  | [k], ss, j, sib, hs, hj, hv => by
    cases hget : ss[k]? with
    | none => simp [validPathB, hget] at hv
    | some s =>
      cases hsec : s.sections with
      | none => simp [List.cons_append, List.nil_append, siblings, hget, hsec] at hs
      | some ss' =>
        simp only [List.cons_append, List.nil_append, siblings, hget, hsec] at hs
        have ih := validPathB_concat_of_lt [] ss' j sib (by simpa [siblings] using hs) hj rfl
        simp only [List.cons_append, List.nil_append, validPathB, hget, hsec]
        simpa using ih
  | k :: l :: rest, ss, j, sib, hs, hj, hv => by
    cases hget : ss[k]? with
    | none => simp [validPathB, hget] at hv
    | some s =>
      cases hsec : s.sections with
      | none => simp [validPathB, hget, hsec] at hv
      | some ss' =>
        simp only [List.cons_append, validPathB, hget, hsec] at hv ⊢
        simp only [List.cons_append, siblings, hget, hsec] at hs
        exact validPathB_concat_of_lt (l :: rest) ss' j sib hs hj hv

theorem siblings_isSome_of_valid : ∀ (q : List Nat) (ss : List MSection) (i : Nat),
    validPathB ss (q ++ [i]) = true → ∃ sib, siblings ss (q ++ [i]) = some sib
  | [], ss, i, _ => ⟨ss, rfl⟩
  | [k], ss, i, hv => by
    cases hget : ss[k]? with
    | none => simp [validPathB, hget] at hv
    | some s =>
      cases hsec : s.sections with
      | none => simp [validPathB, hget, hsec] at hv
      | some ss' =>
        simp only [List.cons_append, List.nil_append, validPathB, hget, hsec] at hv
        obtain ⟨sib, hsib⟩ := siblings_isSome_of_valid [] ss' i (by simpa using hv)
        exact ⟨sib, by simpa [siblings, hget, hsec] using hsib⟩
  | k :: l :: rest, ss, i, hv => by
    cases hget : ss[k]? with
    | none => simp [validPathB, hget] at hv
    | some s =>
      cases hsec : s.sections with
      | none => simp [validPathB, hget, hsec] at hv
      | some ss' =>
        simp only [List.cons_append, validPathB, hget, hsec] at hv
        obtain ⟨sib, hsib⟩ := siblings_isSome_of_valid (l :: rest) ss' i hv
        exact ⟨sib, by simpa [siblings, hget, hsec] using hsib⟩

/-- On a valid non-empty path, `__get_parent_current_location` succeeds and the
parent's child tuple is exactly the sibling list enclosing the current node. -/
theorem parent_node_of_valid (m : Menu) (cbs : Option CallbackMap) (q : List Nat) (i : Nat)
    (hv : validPathB m.sections (q ++ [i]) = true) :
    ∃ node, get_parent_current_location ⟨m, cbs, q ++ [i]⟩ = .ok node ∧
      node.sectionsOpt = siblings m.sections (q ++ [i]) := by
  cases q with
  | nil =>
    exact ⟨.root m, by simp [get_parent_current_location], rfl⟩
  | cons k q' =>
    have hq : validPathB m.sections (k :: q') = true := by
      have := validPathB_dropLast ((k :: q') ++ [i]) m.sections hv
      rwa [List.dropLast_concat] at this
    obtain ⟨s, hres⟩ := resolve_isSome_of_valid (k :: q') m.sections (by simp) hq
    refine ⟨.child s, ?_, ?_⟩
    · have hloop := parentLoop_concat (k :: q') m.sections s [i] hres
      have hlen : ((k :: q') ++ [i]).length - 2 = (k :: q').length - 1 := by
        simp
      simp only [get_parent_current_location]
      rw [if_neg (by simp)]
      rw [hlen, hloop]
    · simpa [Node.sectionsOpt] using (siblings_concat (k :: q') m.sections s i hres).symm

/-- Behaviour of `next` on a valid state: the deepest index moves to its successor
modulo the sibling count and the result is the report of the new location without
callback. -/
theorem next_eq_of_valid (m : Menu) (cbs : Option CallbackMap) (q : List Nat) (i : Nat)
    (sib : List MSection) (hv : validPathB m.sections (q ++ [i]) = true)
    (hs : siblings m.sections (q ++ [i]) = some sib) :
    next ⟨m, cbs, q ++ [i]⟩ =
      (⟨m, cbs, q ++ [(i + 1) % sib.length]⟩,
       get_current_location ⟨m, cbs, q ++ [(i + 1) % sib.length]⟩ false) := by
  obtain ⟨node, hpn, hps⟩ := parent_node_of_valid m cbs q i hv
  have hi : i < sib.length := last_lt_of_valid q m.sections i sib hv hs
  rw [hs] at hps
  have harith : (if sib.length = i + 1 then 0 else i + 1) = (i + 1) % sib.length := by
    rcases Nat.lt_or_ge (i + 1) sib.length with hlt | hge
    · rw [if_neg (Nat.ne_of_gt hlt), Nat.mod_eq_of_lt hlt]
    · have he : sib.length = i + 1 := by omega
      rw [if_pos he, he, Nat.mod_self]
  simp only [next, hpn, hps, List.getLast?_concat, List.dropLast_concat, harith]

/-- Behaviour of `previous` on a valid state: the deepest index moves to its
predecessor modulo the sibling count (wrapping from 0 to the last sibling). -/
theorem previous_eq_of_valid (m : Menu) (cbs : Option CallbackMap) (q : List Nat) (i : Nat)
    (sib : List MSection) (hv : validPathB m.sections (q ++ [i]) = true)
    (hs : siblings m.sections (q ++ [i]) = some sib) :
    previous ⟨m, cbs, q ++ [i]⟩ =
      (⟨m, cbs, q ++ [(i + sib.length - 1) % sib.length]⟩,
       get_current_location ⟨m, cbs, q ++ [(i + sib.length - 1) % sib.length]⟩ false) := by
  obtain ⟨node, hpn, hps⟩ := parent_node_of_valid m cbs q i hv
  have hi : i < sib.length := last_lt_of_valid q m.sections i sib hv hs
  rw [hs] at hps
  have hn : 0 < sib.length := Nat.lt_of_le_of_lt (Nat.zero_le i) hi
  have harith : (if i = 0 then sib.length else i) - 1 = (i + sib.length - 1) % sib.length := by
    rcases Nat.eq_zero_or_pos i with hz | hpos
    · rw [if_pos hz, hz, Nat.zero_add, Nat.mod_eq_of_lt (Nat.sub_lt hn Nat.one_pos)]
    · rw [if_neg (Nat.pos_iff_ne_zero.mp hpos)]
      have h1 : i + sib.length - 1 = (i - 1) + sib.length := by omega
      rw [h1, Nat.add_mod_right, Nat.mod_eq_of_lt (by omega)]
  simp only [previous, hpn, hps, List.getLast?_concat, List.dropLast_concat, harith]

/-! Well-formedness lemmas and the navigation invariant. -/

theorem mem_of_getElem_opt {α : Type} {l : List α} {n : Nat} {a : α}
    (h : l[n]? = some a) : a ∈ l := by
  obtain ⟨hn, he⟩ := List.getElem?_eq_some.mp h
  exact he ▸ List.getElem_mem hn

theorem wfSections_mem : ∀ (ss : List MSection) (s : MSection),
    wfSections ss = true → s ∈ ss → wfSection s = true
  | [], _, _, hmem => by cases hmem
  | t :: rest, s, hwf, hmem => by
    simp only [wfSections, Bool.and_eq_true] at hwf
    cases hmem with
    | head => exact hwf.1
    | tail _ hmem' => exact wfSections_mem rest s hwf.2 hmem'

theorem wfSection_sections (s : MSection) (ss' : List MSection)
    (hw : wfSection s = true) (hs : s.sections = some ss') :
    ss' ≠ [] ∧ wfSections ss' = true := by
  cases s with
  | mk n l c secs =>
    cases secs with
    | none => simp [MSection.sections] at hs
    | some ss₀ =>
      simp only [MSection.sections] at hs
      cases hs
      simp only [wfSection, Bool.and_eq_true] at hw
      refine ⟨?_, hw.2⟩
      intro he
      rw [he] at hw
      simp at hw

theorem wfSection_resolve : ∀ (p : List Nat) (ss : List MSection) (s : MSection),
    wfSections ss = true → resolve ss p = some s → wfSection s = true
  | [], _, _, _, hr => by simp [resolve] at hr
  | [i], ss, s, hwf, hr => by
    simp only [resolve] at hr
    exact wfSections_mem ss s hwf (mem_of_getElem_opt hr)
  | i :: j :: rest, ss, s, hwf, hr => by
    cases hget : ss[i]? with
    | none => simp [resolve, hget] at hr
    | some s₀ =>
      cases hsec : s₀.sections with
      | none => simp [resolve, hget, hsec] at hr
      | some ss' =>
        simp only [resolve, hget, hsec] at hr
        have hw₀ := wfSections_mem ss s₀ hwf (mem_of_getElem_opt hget)
        exact wfSection_resolve (j :: rest) ss' s (wfSection_sections s₀ ss' hw₀ hsec).2 hr

theorem applyNav_good (h : MenuHandler) (op : NavOp)
    (hwf : wfMenu h.menu = true)
    (hne : h.current_location ≠ [])
    (hv : validPathB h.menu.sections h.current_location = true) :
    (applyNav h op).menu = h.menu ∧ (applyNav h op).callbacks = h.callbacks ∧
    (applyNav h op).current_location ≠ [] ∧
    validPathB h.menu.sections (applyNav h op).current_location = true := by
  obtain ⟨m, cbs, p⟩ := h
  simp only at hne hv ⊢
  have hwfs : wfSections m.sections = true := by
    simp only [wfMenu, Bool.and_eq_true] at hwf
    exact hwf.2
  cases op with
  | back =>
    by_cases hl : p.length > 1
    · have hstate : (applyNav ⟨m, cbs, p⟩ .back) = ⟨m, cbs, p.dropLast⟩ := by
        simp [applyNav, back, hl]
      rw [hstate]
      refine ⟨rfl, rfl, ?_, validPathB_dropLast p m.sections hv⟩
      apply List.ne_nil_of_length_pos
      rw [List.length_dropLast]
      omega
    · have hstate : (applyNav ⟨m, cbs, p⟩ .back) = ⟨m, cbs, p⟩ := by
        simp [applyNav, back, hl]
      rw [hstate]
      exact ⟨rfl, rfl, hne, hv⟩
  | forward =>
    obtain ⟨s, hres⟩ := resolve_isSome_of_valid p m.sections hne hv
    have hloc := getLocation_of_resolve p m.sections s hres
    cases hsec : s.sections with
    | some ss' =>
      have hstate : (applyNav ⟨m, cbs, p⟩ .forward) = ⟨m, cbs, p ++ [0]⟩ := by
        simp [applyNav, forward, hloc, hsec]
      rw [hstate]
      refine ⟨rfl, rfl, by simp, ?_⟩
      have hsib : siblings m.sections (p ++ [0]) = some ss' := by
        rw [siblings_concat p m.sections s 0 hres, hsec]
      have hwfs' := wfSection_resolve p m.sections s hwfs hres
      have h0 : 0 < ss'.length :=
        List.length_pos.mpr (wfSection_sections s ss' hwfs' hsec).1
      exact validPathB_concat_of_lt p m.sections 0 ss' hsib h0 hv
    | none =>
      have hstate : (applyNav ⟨m, cbs, p⟩ .forward) = ⟨m, cbs, p⟩ := by
        simp [applyNav, forward, hloc, hsec]
      rw [hstate]
      exact ⟨rfl, rfl, hne, hv⟩
  | next =>
    rcases List.eq_nil_or_concat p with hnil | ⟨q, i, hp⟩
    · exact absurd hnil hne
    rw [List.concat_eq_append] at hp
    subst hp
    obtain ⟨sib, hs⟩ := siblings_isSome_of_valid q m.sections i hv
    have hi : i < sib.length := last_lt_of_valid q m.sections i sib hv hs
    have hstate : (applyNav ⟨m, cbs, q ++ [i]⟩ .next)
        = ⟨m, cbs, q ++ [(i + 1) % sib.length]⟩ := by
      simp only [applyNav]
      rw [next_eq_of_valid m cbs q i sib hv hs]
    rw [hstate]
    refine ⟨rfl, rfl, by simp, ?_⟩
    have hs' : siblings m.sections (q ++ [(i + 1) % sib.length]) = some sib := by
      rw [siblings_congr_last q m.sections ((i + 1) % sib.length) i, hs]
    have hq : validPathB m.sections q = true := by
      have := validPathB_dropLast (q ++ [i]) m.sections hv
      rwa [List.dropLast_concat] at this
    exact validPathB_concat_of_lt q m.sections ((i + 1) % sib.length) sib hs'
      (Nat.mod_lt _ (Nat.lt_of_le_of_lt (Nat.zero_le i) hi)) hq
  | previous =>
    rcases List.eq_nil_or_concat p with hnil | ⟨q, i, hp⟩
    · exact absurd hnil hne
    rw [List.concat_eq_append] at hp
    subst hp
    obtain ⟨sib, hs⟩ := siblings_isSome_of_valid q m.sections i hv
    have hi : i < sib.length := last_lt_of_valid q m.sections i sib hv hs
    have hstate : (applyNav ⟨m, cbs, q ++ [i]⟩ .previous)
        = ⟨m, cbs, q ++ [(i + sib.length - 1) % sib.length]⟩ := by
      simp only [applyNav]
      rw [previous_eq_of_valid m cbs q i sib hv hs]
    rw [hstate]
    refine ⟨rfl, rfl, by simp, ?_⟩
    have hs' : siblings m.sections (q ++ [(i + sib.length - 1) % sib.length]) = some sib := by
      rw [siblings_congr_last q m.sections ((i + sib.length - 1) % sib.length) i, hs]
    have hq : validPathB m.sections q = true := by
      have := validPathB_dropLast (q ++ [i]) m.sections hv
      rwa [List.dropLast_concat] at this
    exact validPathB_concat_of_lt q m.sections ((i + sib.length - 1) % sib.length) sib hs'
      (Nat.mod_lt _ (Nat.lt_of_le_of_lt (Nat.zero_le i) hi)) hq

theorem runNav_good : ∀ (ops : List NavOp) (h : MenuHandler),
    wfMenu h.menu = true → h.current_location ≠ [] →
    validPathB h.menu.sections h.current_location = true →
    (runNav h ops).menu = h.menu ∧ (runNav h ops).callbacks = h.callbacks ∧
    (runNav h ops).current_location ≠ [] ∧
    validPathB h.menu.sections (runNav h ops).current_location = true
  | [], _, _, hne, hv => ⟨rfl, rfl, hne, hv⟩
  | op :: ops, h, hwf, hne, hv => by
    have hstep := applyNav_good h op hwf hne hv
    have hrec := runNav_good ops (applyNav h op) (by rw [hstep.1]; exact hwf)
      hstep.2.2.1 (by rw [hstep.1]; exact hstep.2.2.2)
    simp only [runNav]
    refine ⟨hrec.1.trans hstep.1, hrec.2.1.trans hstep.2.1, hrec.2.2.1, ?_⟩
    rw [← hstep.1]
    exact hrec.2.2.2



/-- A report without callback never consults the callback registry. -/
theorem gcl_false_callbacks_indep (st : MenuHandler) (c : Option CallbackMap) :
    get_current_location { st with callbacks := c } false = get_current_location st false := by
  obtain ⟨m, cbs, p⟩ := st
  cases hloc : getLocation (some m.sections) p <;>
    simp [get_current_location, addressedNode, hloc]

/-! The claim theorems. -/

/-- C1: when the path is longer than 1, `back` pops the last path element and
returns the report of the new location without activation; at path length 1 it
leaves the path unchanged and returns the report of the current location with
activation. -/
theorem c1_back_spec (h : MenuHandler) :
    (1 < h.current_location.length →
      (back h).1 = { h with current_location := h.current_location.dropLast } ∧
      (back h).2 =
        get_current_location { h with current_location := h.current_location.dropLast } false) ∧
    (h.current_location.length = 1 →
      (back h).1 = h ∧ (back h).2 = get_current_location h true) := by
  constructor
  · intro hl
    simp [back, hl]
  · intro hl
    simp [back, hl]

/-- Witness for C1: a depth-2 state (pop without activation) and a depth-1 state
(no move, activation). -/
theorem c1_back_spec_witness :
    (1 < exLeafHandler.current_location.length ∧
      ((back exLeafHandler).1 =
          { exLeafHandler with current_location := exLeafHandler.current_location.dropLast } ∧
       (back exLeafHandler).2 =
         get_current_location
           { exLeafHandler with current_location := exLeafHandler.current_location.dropLast }
           false)) ∧
    (rootHandler.current_location.length = 1 ∧
      ((back rootHandler).1 = rootHandler ∧
       (back rootHandler).2 = get_current_location rootHandler true)) :=
  ⟨⟨by decide, (c1_back_spec exLeafHandler).1 (by decide)⟩,
   ⟨by decide, (c1_back_spec rootHandler).2 (by decide)⟩⟩

/-- C2: when the current node is a branch, `forward` appends index 0 and returns the
report of the new location without activation; at a leaf it leaves the path
unchanged and returns the report of the current location with activation. -/
theorem c2_forward_spec (h : MenuHandler) (s : MSection)
    (hres : getLocation (some h.menu.sections) h.current_location = .ok s) :
    (∀ ss, s.sections = some ss →
      (forward h).1 = { h with current_location := h.current_location ++ [0] } ∧
      (forward h).2 =
        get_current_location { h with current_location := h.current_location ++ [0] } false) ∧
    (s.sections = none →
      (forward h).1 = h ∧ (forward h).2 = get_current_location h true) := by
  constructor
  · intro ss hsec
    simp [forward, hres, hsec]
  · intro hsec
    simp [forward, hres, hsec]

/-- Witness for C2: the branch A (descend to A.a) and the leaf A.b (no move,
activation). -/
theorem c2_forward_spec_witness :
    (getLocation (some exHandler.menu.sections) exHandler.current_location = .ok secA ∧
      secA.sections = some [secAa, secAb] ∧
      ((forward exHandler).1 =
          { exHandler with current_location := exHandler.current_location ++ [0] } ∧
       (forward exHandler).2 =
         get_current_location
           { exHandler with current_location := exHandler.current_location ++ [0] } false)) ∧
    (getLocation (some exLeafHandler.menu.sections) exLeafHandler.current_location = .ok secAb ∧
      secAb.sections = none ∧
      ((forward exLeafHandler).1 = exLeafHandler ∧
       (forward exLeafHandler).2 = get_current_location exLeafHandler true)) :=
  ⟨⟨rfl, rfl, (c2_forward_spec exHandler secA rfl).1 [secAa, secAb] rfl⟩,
   ⟨rfl, rfl, (c2_forward_spec exLeafHandler secAb rfl).2 rfl⟩⟩

/-- C6: activating a node whose callback identifier has no entry in the supplied
registry fails with a lookup error (`KeyError`) and never returns a value. -/
theorem c6_lookup_error (h : MenuHandler) (node : Node) (c : String) (cbs : CallbackMap)
    (hn : addressedNode h true = .ok node)
    (hc : node.callback = some c)
    (hcb : h.callbacks = some cbs)
    (hl : cbs.lookup c = none) :
    get_current_location h true = .error .keyError ∧
    ∀ v, get_current_location h true ≠ .ok v := by
  have hk : get_current_location h true = .error .keyError := by
    simp [get_current_location, hn, hc, invokeCallback, hcb, hl]
  exact ⟨hk, fun v => by simp [hk]⟩

/-- Witness for C6: at the leaf A.a (callback id `cb_aa`) under a registry with no
entry for it. -/
theorem c6_lookup_error_witness :
    (addressedNode cex6Handler true = .ok (.child secAa) ∧
      (Node.child secAa).callback = some "cb_aa" ∧
      cex6Handler.callbacks = some [("other", fun _ => some "x")] ∧
      ([(("other" : String), fun _ => some "x")] : CallbackMap).lookup "cb_aa" = none) ∧
    (get_current_location cex6Handler true = .error .keyError ∧
      ∀ v, get_current_location cex6Handler true ≠ .ok v) :=
  ⟨⟨rfl, rfl, rfl, rfl⟩,
   c6_lookup_error cex6Handler (.child secAa) "cb_aa" [("other", fun _ => some "x")]
     rfl rfl rfl rfl⟩

/-- C3: on a valid state, `next` replaces the last path index `i` by
`(i + 1) % sibling_count` of the enclosing parent and `previous` by
`(i + sibling_count - 1) % sibling_count`; both preserve the path length, both
return the report of the new location without activation, and a report without
activation is independent of the callback registry (no callback is invoked). -/
theorem c3_next_previous_spec (m : Menu) (cbs : Option CallbackMap) (q : List Nat)
    (i : Nat) (sib : List MSection)
    (hv : validPathB m.sections (q ++ [i]) = true)
    (hs : siblings m.sections (q ++ [i]) = some sib) :
    (next ⟨m, cbs, q ++ [i]⟩).1 = ⟨m, cbs, q ++ [(i + 1) % sib.length]⟩ ∧
    (previous ⟨m, cbs, q ++ [i]⟩).1 = ⟨m, cbs, q ++ [(i + sib.length - 1) % sib.length]⟩ ∧
    (next ⟨m, cbs, q ++ [i]⟩).1.current_location.length = (q ++ [i]).length ∧
    (previous ⟨m, cbs, q ++ [i]⟩).1.current_location.length = (q ++ [i]).length ∧
    (next ⟨m, cbs, q ++ [i]⟩).2 = get_current_location (next ⟨m, cbs, q ++ [i]⟩).1 false ∧
    (previous ⟨m, cbs, q ++ [i]⟩).2 =
      get_current_location (previous ⟨m, cbs, q ++ [i]⟩).1 false ∧
    (∀ (st : MenuHandler) (c : Option CallbackMap),
      get_current_location { st with callbacks := c } false = get_current_location st false) := by
  have hn := next_eq_of_valid m cbs q i sib hv hs
  have hp := previous_eq_of_valid m cbs q i sib hv hs
  refine ⟨by rw [hn], by rw [hp], by rw [hn]; simp, by rw [hp]; simp,
    by rw [hn], by rw [hp], gcl_false_callbacks_indep⟩

/-- Witness for C3: at A.a (path `[0] ++ [0]`, siblings A.a and A.b). -/
theorem c3_next_previous_spec_witness :
    (validPathB exMenu.sections ([0] ++ [0]) = true ∧
      siblings exMenu.sections ([0] ++ [0]) = some [secAa, secAb]) ∧
    ((next ⟨exMenu, exCallbacks, [0] ++ [0]⟩).1 =
        ⟨exMenu, exCallbacks, [0] ++ [(0 + 1) % [secAa, secAb].length]⟩ ∧
     (previous ⟨exMenu, exCallbacks, [0] ++ [0]⟩).1 =
        ⟨exMenu, exCallbacks,
         [0] ++ [(0 + [secAa, secAb].length - 1) % [secAa, secAb].length]⟩ ∧
     (next ⟨exMenu, exCallbacks, [0] ++ [0]⟩).1.current_location.length =
        ([0] ++ [0] : List Nat).length ∧
     (previous ⟨exMenu, exCallbacks, [0] ++ [0]⟩).1.current_location.length =
        ([0] ++ [0] : List Nat).length ∧
     (next ⟨exMenu, exCallbacks, [0] ++ [0]⟩).2 =
        get_current_location (next ⟨exMenu, exCallbacks, [0] ++ [0]⟩).1 false ∧
     (previous ⟨exMenu, exCallbacks, [0] ++ [0]⟩).2 =
        get_current_location (previous ⟨exMenu, exCallbacks, [0] ++ [0]⟩).1 false ∧
     (∀ (st : MenuHandler) (c : Option CallbackMap),
       get_current_location { st with callbacks := c } false = get_current_location st false)) :=
  ⟨⟨by decide, rfl⟩,
   c3_next_previous_spec exMenu exCallbacks [0] 0 [secAa, secAb] (by decide) rfl⟩

/-- C8: from any valid state, `next` followed by `previous` (and `previous` followed
by `next`) returns the handler to exactly the original state. -/
theorem c8_next_previous_inverse (m : Menu) (cbs : Option CallbackMap) (q : List Nat)
    (i : Nat) (hv : validPathB m.sections (q ++ [i]) = true) :
    (previous (next ⟨m, cbs, q ++ [i]⟩).1).1 = ⟨m, cbs, q ++ [i]⟩ ∧
    (next (previous ⟨m, cbs, q ++ [i]⟩).1).1 = ⟨m, cbs, q ++ [i]⟩ := by
  obtain ⟨sib, hs⟩ := siblings_isSome_of_valid q m.sections i hv
  have hi : i < sib.length := last_lt_of_valid q m.sections i sib hv hs
  have hlen : 0 < sib.length := Nat.lt_of_le_of_lt (Nat.zero_le i) hi
  have hq : validPathB m.sections q = true := by
    have := validPathB_dropLast (q ++ [i]) m.sections hv
    rwa [List.dropLast_concat] at this
  have hstep : ∀ j, j < sib.length →
      siblings m.sections (q ++ [j]) = some sib ∧
      validPathB m.sections (q ++ [j]) = true := by
    intro j hj
    have hs' : siblings m.sections (q ++ [j]) = some sib := by
      rw [siblings_congr_last q m.sections j i, hs]
    exact ⟨hs', validPathB_concat_of_lt q m.sections j sib hs' hj hq⟩
  constructor
  · have hn := next_eq_of_valid m cbs q i sib hv hs
    have hj : (i + 1) % sib.length < sib.length := Nat.mod_lt _ hlen
    obtain ⟨hs', hv'⟩ := hstep ((i + 1) % sib.length) hj
    have hp := previous_eq_of_valid m cbs q ((i + 1) % sib.length) sib hv' hs'
    rw [hn]
    simp only [hp]
    have harith : ((i + 1) % sib.length + sib.length - 1) % sib.length = i := by
      rcases Nat.lt_or_ge (i + 1) sib.length with hlt | hge
      · rw [Nat.mod_eq_of_lt hlt]
        have h1 : i + 1 + sib.length - 1 = i + sib.length := by omega
        rw [h1, Nat.add_mod_right, Nat.mod_eq_of_lt hi]
      · have he : i + 1 = sib.length := by omega
        rw [he, Nat.mod_self, Nat.zero_add]
        have h2 : sib.length - 1 = i := by omega
        rw [h2, Nat.mod_eq_of_lt hi]
    rw [harith]
  · have hp := previous_eq_of_valid m cbs q i sib hv hs
    have hj : (i + sib.length - 1) % sib.length < sib.length := Nat.mod_lt _ hlen
    obtain ⟨hs', hv'⟩ := hstep ((i + sib.length - 1) % sib.length) hj
    have hn := next_eq_of_valid m cbs q ((i + sib.length - 1) % sib.length) sib hv' hs'
    rw [hp]
    simp only [hn]
    have harith : ((i + sib.length - 1) % sib.length + 1) % sib.length = i := by
      rcases Nat.eq_zero_or_pos i with hz | hpos
      · subst hz
        rw [Nat.zero_add, Nat.mod_eq_of_lt (Nat.sub_lt hlen Nat.one_pos)]
        have h1 : sib.length - 1 + 1 = sib.length := by omega
        rw [h1, Nat.mod_self]
      · have h1 : i + sib.length - 1 = (i - 1) + sib.length := by omega
        rw [h1, Nat.add_mod_right, Nat.mod_eq_of_lt (by omega : i - 1 < sib.length)]
        have h2 : i - 1 + 1 = i := by omega
        rw [h2, Nat.mod_eq_of_lt hi]
    rw [harith]

/-- Witness for C8: at B (path `[] ++ [1]`, wrap-around on the top level). -/
theorem c8_next_previous_inverse_witness :
    validPathB exMenu.sections ([] ++ [1]) = true ∧
    ((previous (next ⟨exMenu, exCallbacks, [] ++ [1]⟩).1).1 =
        ⟨exMenu, exCallbacks, [] ++ [1]⟩ ∧
     (next (previous ⟨exMenu, exCallbacks, [] ++ [1]⟩).1).1 =
        ⟨exMenu, exCallbacks, [] ++ [1]⟩) :=
  ⟨by decide, c8_next_previous_inverse exMenu exCallbacks [] 1 (by decide)⟩

/-- C7: starting from the initial path `[0]` on a menu satisfying the tree
invariants, any sequence of back/forward/next/previous calls keeps the path
non-empty with every index in bounds, and neither the menu nor the callback
registry is ever changed. -/
theorem c7_path_validity_invariant (m : Menu) (cbs : Option CallbackMap)
    (ops : List NavOp) (hwf : wfMenu m = true) :
    (runNav (initialHandler m cbs) ops).menu = m ∧
    (runNav (initialHandler m cbs) ops).callbacks = cbs ∧
    (runNav (initialHandler m cbs) ops).current_location ≠ [] ∧
    validPathB m.sections (runNav (initialHandler m cbs) ops).current_location = true := by
  have hv0 : validPathB m.sections [0] = true := by
    simp only [wfMenu, Bool.and_eq_true] at hwf
    have hne : m.sections ≠ [] := by
      intro he
      rw [he] at hwf
      simp at hwf
    have hlen : 0 < m.sections.length := List.length_pos.mpr hne
    simp [validPathB, List.getElem?_eq_getElem hlen]
  exact runNav_good ops (initialHandler m cbs) hwf (by simp [initialHandler]) hv0

/-- Witness for C7: the walk of the specification example (forward, forward, back,
next, forward, forward, back) on the sample tree. -/
theorem c7_path_validity_invariant_witness :
    wfMenu exMenu = true ∧
    ((runNav (initialHandler exMenu exCallbacks)
        [.forward, .forward, .back, .next, .forward, .forward, .back]).menu = exMenu ∧
     (runNav (initialHandler exMenu exCallbacks)
        [.forward, .forward, .back, .next, .forward, .forward, .back]).callbacks = exCallbacks ∧
     (runNav (initialHandler exMenu exCallbacks)
        [.forward, .forward, .back, .next, .forward, .forward, .back]).current_location ≠ [] ∧
     validPathB exMenu.sections
       (runNav (initialHandler exMenu exCallbacks)
          [.forward, .forward, .back, .next, .forward, .forward, .back]).current_location
       = true) :=
  ⟨rfl, c7_path_validity_invariant exMenu exCallbacks
    [.forward, .forward, .back, .next, .forward, .forward, .back] rfl⟩

/-- C4 counterexample: `cex4Handler` sits at path `[0]`; the node at that path is
section A with callback `sec_cb`, and the registry maps `sec_cb` to a function
returning "SECTION" — yet `get_current_location` with callback fails with an
`AttributeError` (the root menu, which has no callback here, is addressed instead),
returning neither the callback's result nor the label. -/
theorem c4_counterexample :
    getLocation (some cex4Handler.menu.sections) cex4Handler.current_location =
      .ok (.mk "A" (some "LabelA") (some "sec_cb") none) ∧
    (MSection.mk "A" (some "LabelA") (some "sec_cb") none).callback = some "sec_cb" ∧
    cex4Handler.callbacks = some [("sec_cb", fun _ => some "SECTION")] ∧
    (([(("sec_cb" : String), fun _ => some ("SECTION" : String))] : CallbackMap).lookup
        "sec_cb").isSome = true ∧
    get_current_location cex4Handler true = .error .attributeError :=
  ⟨rfl, rfl, rfl, rfl, rfl⟩

/-- C4 (amended): `get_current_location` resolves the node at the current path
except when `use_callback` is true and the path has length 1, where the root menu
itself is addressed; on a resolved section, a present callback identifier (under
`use_callback`) is invoked through the registry and its result returned verbatim,
otherwise the label when present else the name is returned; on the root menu, its
callback is invoked when present, and otherwise the call fails (the menu has
neither label nor name). -/
theorem c4_get_current_location_spec (h : MenuHandler) (use_callback : Bool) :
    ((use_callback = true → h.current_location.length ≠ 1) →
      ∀ s, getLocation (some h.menu.sections) h.current_location = .ok s →
        ((use_callback = true →
            ∀ c cbs f, s.callback = some c → h.callbacks = some cbs →
              cbs.lookup c = some f →
              get_current_location h use_callback = .ok (f ())) ∧
         ((use_callback = false ∨ s.callback = none) →
            get_current_location h use_callback = .ok (some (s.label.getD s.name))))) ∧
    (use_callback = true → h.current_location.length = 1 →
      ((∀ c cbs f, h.menu.callback = some c → h.callbacks = some cbs →
          cbs.lookup c = some f → get_current_location h true = .ok (f ())) ∧
       (h.menu.callback = none → get_current_location h true = .error .attributeError))) := by
  constructor
  · intro hne s hres
    have hb : (h.current_location.length == 1 && use_callback) = false := by
      cases hu : use_callback
      · simp
      · rw [Bool.and_true]
        exact beq_eq_false_iff_ne.mpr (hne hu)
    have haddr : addressedNode h use_callback = .ok (.child s) := by
      simp [addressedNode, hb, hres]
    constructor
    · intro hu c cbs f hc hcb hf
      subst hu
      simp [get_current_location, haddr, Node.callback, hc, invokeCallback, hcb, hf]
    · intro hor
      rcases hor with hu | hc
      · subst hu
        cases hl : s.label <;> simp [get_current_location, haddr, hl]
      · cases hu : use_callback <;> rw [hu] at haddr <;>
          cases hl : s.label <;>
            simp [get_current_location, haddr, Node.callback, hc, hl]
  · intro hu hlen
    subst hu
    have haddr : addressedNode h true = .ok (.root h.menu) := by
      simp [addressedNode, hlen]
    constructor
    · intro c cbs f hc hcb hf
      simp [get_current_location, haddr, Node.callback, hc, invokeCallback, hcb, hf]
    · intro hc
      simp [get_current_location, haddr, Node.callback, hc]

/-- Witness for C4 (amended): callback invocation at depth 2 (leaf A.a), root menu
callback at depth 1, and the failing no-callback root case. -/
theorem c4_get_current_location_spec_witness :
    ((true = true → exLeafCbHandler.current_location.length ≠ 1) ∧
     getLocation (some exLeafCbHandler.menu.sections) exLeafCbHandler.current_location =
       .ok secAa ∧
     secAa.callback = some "cb_aa" ∧
     get_current_location exLeafCbHandler true = .ok (some "ran A.a")) ∧
    (rootHandler.current_location.length = 1 ∧
     rootMenu.callback = some "menu_cb" ∧
     get_current_location rootHandler true = .ok (some "MENU")) ∧
    (cex4Handler.current_location.length = 1 ∧
     cex4Menu.callback = none ∧
     get_current_location cex4Handler true = .error .attributeError) :=
  ⟨⟨fun _ => by decide, rfl, rfl,
     ((c4_get_current_location_spec exLeafCbHandler true).1 (fun _ => by decide) secAa rfl).1
       rfl "cb_aa"
       [("cb_aa", fun _ => some "ran A.a"), ("cb_a", fun _ => none),
        ("cb_menu", fun _ => some "ran menu")]
       (fun _ => some "ran A.a") rfl rfl rfl⟩,
   ⟨by decide, rfl,
     ((c4_get_current_location_spec rootHandler true).2 rfl (by decide)).1
       "menu_cb"
       [("sec_cb", fun _ => some "SECTION"), ("menu_cb", fun _ => some "MENU")]
       (fun _ => some "MENU") rfl rfl rfl⟩,
   ⟨by decide, rfl,
     ((c4_get_current_location_spec cex4Handler true).2 rfl (by decide)).2 rfl⟩⟩

/-- C5 counterexample: at depth 1, `back` activates the MENU's callback ("MENU"),
not the top-level section's ("SECTION"), even though the section declares one. -/
theorem c5_counterexample :
    (back rootHandler).1 = rootHandler ∧
    (back rootHandler).2 = .ok (some "MENU") ∧
    (back rootHandler).2 ≠ .ok (some "SECTION") := by
  refine ⟨rfl, rfl, ?_⟩
  intro hcontra
  have h2 : (Except.ok (some "MENU") : Except HErr (Option String)) =
      Except.ok (some "SECTION") := hcontra
  simp at h2

/-- C5 (amended): when `back` is invoked at depth 1, the position is unchanged and
the activation addresses the root menu itself: the menu's callback fires when
present (and registered), regardless of the top-level section's callback; when the
menu has no callback, the call fails with an `AttributeError` instead of falling
back to the section's label or name. -/
theorem c5_back_root_activation (h : MenuHandler) (hlen : h.current_location.length = 1) :
    (back h).1 = h ∧
    (∀ c cbs f, h.menu.callback = some c → h.callbacks = some cbs →
      cbs.lookup c = some f → (back h).2 = .ok (f ())) ∧
    (h.menu.callback = none → (back h).2 = .error .attributeError) := by
  have hb : back h = (h, get_current_location h true) := by
    simp [back, hlen]
  have haddr : addressedNode h true = .ok (.root h.menu) := by
    simp [addressedNode, hlen]
  refine ⟨by rw [hb], ?_, ?_⟩
  · intro c cbs f hc hcb hf
    rw [hb]
    simp [get_current_location, haddr, Node.callback, hc, invokeCallback, hcb, hf]
  · intro hc
    rw [hb]
    simp [get_current_location, haddr, Node.callback, hc]

/-- Witness for C5 (amended): the menu-callback case and the failing
menu-without-callback case, both at depth 1. -/
theorem c5_back_root_activation_witness :
    (rootHandler.current_location.length = 1 ∧
      rootMenu.callback = some "menu_cb" ∧
      (back rootHandler).2 = .ok (some "MENU")) ∧
    (cex4Handler.current_location.length = 1 ∧
      cex4Menu.callback = none ∧
      (back cex4Handler).2 = .error .attributeError) :=
  ⟨⟨by decide, rfl,
     (c5_back_root_activation rootHandler (by decide)).2.1 "menu_cb"
       [("sec_cb", fun _ => some "SECTION"), ("menu_cb", fun _ => some "MENU")]
       (fun _ => some "MENU") rfl rfl rfl⟩,
   ⟨by decide, rfl, (c5_back_root_activation cex4Handler (by decide)).2.2 rfl⟩⟩

/-- C9 counterexample: the group `g` contains `a.label = A` (recognized) and
`b.extra = v` (unrecognized property `extra`); the build of that group does not
complete — it fails at the label-encoding step because the unrecognized key
registered section `b` with no label — while the same group without the
unrecognized key builds fine. -/
theorem c9_counterexample :
    PropertiesMenuBuilder.build '.' none [("g", [("a.label", "A"), ("b.extra", "v")])] =
      .error .attributeErrorEncode ∧
    PropertiesMenuBuilder.build '.' none [("g", [("a.label", "A")])] =
      .ok (⟨[.mk "g" none none (some [.mk "a" (some "A") none none])], none⟩, []) :=
  ⟨rfl, rfl⟩

/-- C9 (amended): a key with an unrecognized property is reported non-fatally (the
step succeeds with a warning appended) and its value is discarded (no label or
callback is recorded from it), but the key is not fully ignored: its section name
is still registered, with empty label and callback, when not already present — so
the group build later fails for that name unless a recognized key supplies its
label. -/
theorem c9_unknown_property_step (sep : Char)
    (dyn : Option (List (String × List (String × Option String))))
    (m : PropertiesMenuBuilder.GroupMap) (w : List String)
    (key value opt_name opt_property : String)
    (hsplit : (PropertiesMenuBuilder.splitOnSep sep key.toList).map (fun l => String.mk l) =
      [opt_name, opt_property])
    (hd : opt_property ≠ "dynamic") (hl : opt_property ≠ "label")
    (hc : opt_property ≠ "callback") :
    PropertiesMenuBuilder.processOption sep dyn (m, w) (key, value) =
      .ok ((if (m.lookup opt_name).isSome then m else m ++ [(opt_name, (none, none))]),
           w ++ [opt_name]) := by
  simp only [PropertiesMenuBuilder.processOption, hsplit]
  rw [if_neg hd, if_neg hl, if_neg hc]

/-- Witness for C9 (amended): the key `b.extra` on a map that already holds `a`
registers `b` with empty properties and records the warning. -/
theorem c9_unknown_property_step_witness :
    ((PropertiesMenuBuilder.splitOnSep '.' ("b.extra" : String).toList).map
        (fun l => String.mk l) = ["b", "extra"] ∧
      ("extra" : String) ≠ "dynamic" ∧ ("extra" : String) ≠ "label" ∧
      ("extra" : String) ≠ "callback") ∧
    PropertiesMenuBuilder.processOption '.' none ([("a", (some "A", none))], [])
        ("b.extra", "v") =
      .ok ([("a", (some "A", none)), ("b", (none, none))], ["b"]) :=
  ⟨⟨rfl, by decide, by decide, by decide⟩, by
    have happ := c9_unknown_property_step '.' none [("a", (some "A", none))] []
      "b.extra" "v" "b" "extra" rfl (by decide) (by decide) (by decide)
    simpa using happ⟩

/-- C10: a group whose section `foo` defines a callback but no label makes
`build` fail (the Python code calls `.encode('utf-8')` on the absent label,
an `AttributeError`) instead of succeeding with the label absent; supplying the
label makes the same group build. -/
theorem c10_missing_label_build_fails :
    PropertiesMenuBuilder.build '.' none [("g", [("foo.callback", "cb")])] =
      .error .attributeErrorEncode ∧
    PropertiesMenuBuilder.build '.' none
        [("g", [("foo.label", "L"), ("foo.callback", "cb")])] =
      .ok (⟨[.mk "g" none none (some [.mk "foo" (some "L") (some "cb") none])], none⟩, []) :=
  ⟨rfl, rfl⟩

end SimpleMenu
